import Mathlib

/-!
# Verification of the content-based movie recommender (`set_up/main.py`)

This file is a shallow embedding of the core pipeline of the repository's
single source file `set_up/main.py`:

* the metadata normalizer (`convert`, `convert_top3_cast`, `fetch_director`),
* the text cleaner (`stem`, lowercasing plus stop-word removal),
* the tag composition inside `load_and_process_data`,
* the cosine-similarity engine (`cosine_similarity` over count vectors), and
* the query function `recommend`.

Modelling conventions:

* Python strings are modelled as lists of character code points (`Str := List ℕ`);
  `str.lower()` is modelled character-wise on the ASCII range, `str.strip()`
  removes leading/trailing whitespace, `str.split()` splits on whitespace and
  drops empty fields, `" ".join` is `List.intercalate [32]`.
* A raw semi-structured field is `Option (List RecEntry)`: `some recs` is a
  field whose text `ast.literal_eval` parses to a record list, `none` is a
  field whose text cannot be parsed (where the Python code raises).  A raised
  exception propagating out of `pandas.apply` aborts the whole build, which is
  modelled with `Except Unit`.
* Count vectors are `List ℕ`; the floating-point similarity scores consumed by
  `recommend` are modelled as rationals (every float value is a rational),
  while the exact cosine values live in `ℝ` (`Real.sqrt` norms).
* Python's `sorted` is a stable sort; a stable sort's output is uniquely
  determined by the comparator and the input order, so it is modelled by the
  stable `List.insertionSort`.
-/

/-- Python strings, as lists of character code points. -/
abbrev Str : Type := List ℕ

/-- Code-point translation of a Lean string literal, used for concrete inputs. -/
def strN (s : String) : Str := s.toList.map Char.toNat

/-- ASCII whitespace, the characters `str.split()` / `str.strip()` split on. -/
def isSpaceB (c : ℕ) : Bool := c == 32 || c == 9 || c == 10 || c == 11 || c == 12 || c == 13

/-- `str.lower()` on one character (ASCII range, as relevant to this corpus). -/
def lowerChar (c : ℕ) : ℕ := if 65 ≤ c ∧ c ≤ 90 then c + 32 else c

/-- `str.lower()` on a whole string. -/
def lowerStr (s : Str) : Str := s.map lowerChar

/-- `name.replace(" ", "")`: remove every space character inside a name. -/
def despace (s : Str) : Str := List.filter (fun c => c ≠ 32) s

/-- `str.strip()`: drop leading and trailing whitespace. -/
def strip (s : Str) : Str :=
  ((List.dropWhile (fun c => isSpaceB c) s).reverse.dropWhile (fun c => isSpaceB c)).reverse

/-- `str.split()`: split on runs of whitespace, dropping empty fields. -/
def pySplit (s : Str) : List Str :=
  (List.splitOnP (fun c => isSpaceB c) s).filter (fun t => t ≠ [])

/-- `" ".join(tokens)`. -/
def joinSpace (ts : List Str) : Str := List.intercalate [32] ts

/-- `sklearn.feature_extraction.text.ENGLISH_STOP_WORDS`, the fixed frozen
English stop-word list imported by the source file. -/
def ENGLISH_STOP_WORDS : List Str :=
  ([
    "a", "about", "above", "across", "after", "afterwards", "again", "against",
    "all", "almost", "alone", "along", "already", "also", "although", "always",
    "am", "among", "amongst", "amoungst", "amount", "an", "and", "another",
    "any", "anyhow", "anyone", "anything", "anyway", "anywhere", "are",
    "around", "as", "at", "back", "be", "became", "because", "become",
    "becomes", "becoming", "been", "before", "beforehand", "behind", "being",
    "below", "beside", "besides", "between", "beyond", "bill", "both",
    "bottom", "but", "by", "call", "can", "cannot", "cant", "co", "con",
    "could", "couldnt", "cry", "de", "describe", "detail", "do", "done",
    "down", "due", "during", "each", "eg", "eight", "either", "eleven",
    "else", "elsewhere", "empty", "enough", "etc", "even", "ever", "every",
    "everyone", "everything", "everywhere", "except", "few", "fifteen",
    "fifty", "fill", "find", "fire", "first", "five", "for", "former",
    "formerly", "forty", "found", "four", "from", "front", "full", "further",
    "get", "give", "go", "had", "has", "hasnt", "have", "he", "hence", "her",
    "here", "hereafter", "hereby", "herein", "hereupon", "hers", "herself",
    "him", "himself", "his", "how", "however", "hundred", "i", "ie", "if",
    "in", "inc", "indeed", "interest", "into", "is", "it", "its", "itself",
    "keep", "last", "latter", "latterly", "least", "less", "ltd", "made",
    "many", "may", "me", "meanwhile", "might", "mill", "mine", "more",
    "moreover", "most", "mostly", "move", "much", "must", "my", "myself",
    "name", "namely", "neither", "never", "nevertheless", "next", "nine",
    "no", "nobody", "none", "noone", "nor", "not", "nothing", "now",
    "nowhere", "of", "off", "often", "on", "once", "one", "only", "onto",
    "or", "other", "others", "otherwise", "our", "ours", "ourselves", "out",
    "over", "own", "part", "per", "perhaps", "please", "put", "rather", "re",
    "same", "see", "seem", "seemed", "seeming", "seems", "serious", "several",
    "she", "should", "show", "side", "since", "sincere", "six", "sixty", "so",
    "some", "somehow", "someone", "something", "sometime", "sometimes",
    "somewhere", "still", "such", "system", "take", "ten", "than", "that",
    "the", "their", "them", "themselves", "then", "thence", "there",
    "thereafter", "thereby", "therefore", "therein", "thereupon", "these",
    "they", "thick", "thin", "third", "this", "those", "though", "three",
    "through", "throughout", "thru", "thus", "to", "together", "too", "top",
    "toward", "towards", "twelve", "twenty", "two", "un", "under", "until",
    "up", "upon", "us", "very", "via", "was", "we", "well", "were", "what",
    "whatever", "when", "whence", "whenever", "where", "whereafter",
    "whereas", "whereby", "wherein", "whereupon", "wherever", "whether",
    "which", "while", "whither", "who", "whoever", "whole", "whom", "whose",
    "why", "will", "with", "within", "without", "would", "yet", "you",
    "your", "yours", "yourself", "yourselves"] : List String).map strN

/-- `stem(text)` from the source: split on whitespace, lowercase each token,
drop tokens that are in the stop-word list, re-join with single spaces. -/
def stem (text : Str) : Str :=
  joinSpace (((pySplit text).map lowerStr).filter (fun w => w ∉ ENGLISH_STOP_WORDS))

/-- One record of a parsed semi-structured attribute field: a Python dict with
optional `name` and `job` entries (as accessed via `.get`). -/
structure RecEntry where
  name : Option Str
  job : Option Str
deriving DecidableEq

/-- A raw attribute field: `some recs` when `ast.literal_eval` parses the raw
text into a record list, `none` when parsing raises. -/
def RawField : Type := Option (List RecEntry)

deriving instance DecidableEq for RawField

/-- `convert(obj)`: every record's `name` (default `""`), stripped, in order.
A `none` field models `ast.literal_eval` raising, which propagates. -/
def convert (f : RawField) : Except Unit (List Str) :=
  match f with
  | none => Except.error ()
  | some recs => Except.ok (recs.map (fun r => strip (r.name.getD [])))

/-- `convert_top3_cast(obj)`: like `convert` but only the first three records. -/
def convert_top3_cast (f : RawField) : Except Unit (List Str) :=
  match f with
  | none => Except.error ()
  | some recs => Except.ok ((recs.take 3).map (fun r => strip (r.name.getD [])))

/-- The loop body of `fetch_director`: scan the records in order; at the first
record whose `job` is `"Director"` the loop `break`s, appending the stripped
`name` first only when it is non-empty (Python truthiness of `if name:`). -/
def fetch_director : List RecEntry → List Str
  | [] => []
  | r :: rs =>
    if r.job = some (strN "Director") then
      (if strip (r.name.getD []) = [] then [] else [strip (r.name.getD [])])
    else fetch_director rs

/-- `fetch_director(obj)` on a raw field, with `ast.literal_eval` failure
propagating as with `convert`. -/
def fetch_directorF (f : RawField) : Except Unit (List Str) :=
  match f with
  | none => Except.error ()
  | some recs => Except.ok (fetch_director recs)

/-- One row of the merged table after `dropna`, before the `apply` calls. -/
structure RawRow where
  id : ℕ
  title : Str
  overview : Str
  genres : RawField
  keywords : RawField
  cast : RawField
  crew : RawField
deriving DecidableEq

/-- One row of `new_df`: `id`, `title` and the cleaned tag string. -/
structure Item where
  id : ℕ
  title : Str
  tags : Str
deriving DecidableEq

instance : Inhabited Item := ⟨⟨0, [], []⟩⟩

/-- Map a fallible function over a list; the first failure aborts, exactly as
an exception raised inside `pandas.apply` aborts the whole build. -/
def mapE (f : α → Except Unit β) : List α → Except Unit (List β)
  | [] => Except.ok []
  | x :: xs => do
    let y ← f x
    let ys ← mapE f xs
    Except.ok (y :: ys)

/-- The per-row work of `load_and_process_data` after `dropna`: parse the four
record-list fields, split the overview on whitespace, remove the spaces inside
every name, concatenate in the fixed column order
overview ++ genres ++ keywords ++ cast ++ crew, join with spaces, lowercase,
and apply `stem`.  (The Python code performs these as whole-column `apply`s;
per-row processing produces the same rows and fails exactly when some row
fails, since a raised exception aborts the whole build either way.) -/
def processRow (r : RawRow) : Except Unit Item := do
  let gs ← convert r.genres
  let ks ← convert r.keywords
  let cs ← convert_top3_cast r.cast
  let crs ← fetch_directorF r.crew
  let ov := pySplit r.overview
  Except.ok ⟨r.id, r.title,
    stem (lowerStr (joinSpace
      (ov ++ gs.map despace ++ ks.map despace ++ cs.map despace ++ crs.map despace)))⟩

/-- `load_and_process_data`, from the `apply` calls onward: build `new_df`. -/
def load_and_process_data (rows : List RawRow) : Except Unit (List Item) :=
  mapE processRow rows

/-- Dot product of two count vectors. -/
def dotN (v w : List ℕ) : ℕ := (List.zipWith (fun a b => a * b) v w).sum

/-- `sklearn.metrics.pairwise.cosine_similarity` on two count vectors:
`dot(v, w) / (‖v‖ · ‖w‖)`, where sklearn's row normalisation replaces a zero
norm by `1`, leaving zero rows zero — so an entry involving a zero vector is
`0`, never `NaN` or `±∞`. -/
noncomputable def cosineSim (v w : List ℕ) : ℝ :=
  if dotN v v = 0 ∨ dotN w w = 0 then 0
  else (dotN v w : ℝ) / (Real.sqrt (dotN v v) * Real.sqrt (dotN w w))

/-- Entry `(i, j)` of `similarity = cosine_similarity(vectors)`. -/
noncomputable def simMatrix (vs : List (List ℕ)) (i j : ℕ) : ℝ :=
  cosineSim (vs.getD i []) (vs.getD j [])

/-- The comparator realised by
`sorted(..., reverse=True, key=lambda x: x[1])`: descending similarity score,
equal scores left in input order (Python's sort is stable). -/
def scoreDesc (a b : ℕ × ℚ) : Prop := b.2 ≤ a.2

instance : DecidableRel scoreDesc := fun a b => inferInstanceAs (Decidable (b.2 ≤ a.2))

/-- The ordering described by the specification: descending similarity score,
ties broken by ascending original item index. -/
def lexDesc (a b : ℕ × ℚ) : Prop := b.2 < a.2 ∨ (a.2 = b.2 ∧ a.1 ≤ b.1)

instance : DecidableRel lexDesc := fun _ _ => inferInstanceAs (Decidable (_ ∨ _))

/-- `movies_list` from `recommend`:
`sorted(list(enumerate(distances)), reverse=True, key=lambda x: x[1])[1 : n+1]`. -/
def moviesList (distances : List ℚ) (n : ℕ) : List (ℕ × ℚ) :=
  ((List.enum distances).insertionSort scoreDesc).drop 1 |>.take n

/-- `recommend(movie_title, new_df, similarity, n_recommendations)`. -/
def recommend (movie_title : Str) (new_df : List Item) (similarity : List (List ℚ))
    (n_recommendations : ℕ) : List Str :=
  let titles := new_df.map Item.title
  if movie_title ∈ titles then
    let movie_index := titles.indexOf movie_title
    let distances := similarity.getD movie_index []
    let movies_list := moviesList distances n_recommendations
    movies_list.map (fun i => (new_df.getD i.1 default).title)
  else []

/-! ## Shared concrete data for witnesses and counterexamples -/

/-- A three-item `new_df`: item "A" has a tag, items "B" and "C" have empty
tag strings (every token was a stop word or the fields were empty). -/
def dfABC : List Item := [⟨1, strN "A", strN "alien"⟩, ⟨2, strN "B", []⟩, ⟨3, strN "C", []⟩]

/-- The cosine similarity matrix of the count vectors `[[1], [0], [0]]` of
`dfABC` (see `simMatrix_dfABC` below): rows "B" and "C" are zero vectors. -/
def simABC : List (List ℚ) := [[1, 0, 0], [0, 0, 0], [0, 0, 0]]

/-! ## Basic facts about the similarity engine -/

theorem dotN_comm (v w : List ℕ) : dotN v w = dotN w v := by
  unfold dotN
  rw [List.zipWith_comm_of_comm]
  exact fun a b => Nat.mul_comm a b

theorem dotN_self_cons (a : ℕ) (v : List ℕ) :
    dotN (a :: v) (a :: v) = a * a + dotN v v := by
  simp [dotN]

theorem dotN_self_eq_zero_iff (v : List ℕ) : dotN v v = 0 ↔ ∀ x ∈ v, x = 0 := by
  induction v with
  | nil => simp [dotN]
  | cons a v ih =>
    rw [dotN_self_cons]
    simp only [Nat.add_eq_zero, mul_self_eq_zero, List.mem_cons]
    constructor
    · rintro ⟨ha, hv⟩ x (rfl | hx)
      · exact ha
      · exact ih.mp hv x hx
    · intro h
      exact ⟨h a (Or.inl rfl), ih.mpr (fun x hx => h x (Or.inr hx))⟩

theorem cosineSim_self (v : List ℕ) (h : dotN v v ≠ 0) : cosineSim v v = 1 := by
  unfold cosineSim
  rw [if_neg (by simp [h])]
  have hpos : (0 : ℝ) ≤ (dotN v v : ℝ) := Nat.cast_nonneg _
  rw [Real.mul_self_sqrt hpos]
  exact div_self (by exact_mod_cast h)

theorem cosineSim_zero_left (v w : List ℕ) (h : dotN v v = 0) : cosineSim v w = 0 := by
  unfold cosineSim
  rw [if_pos (Or.inl h)]

theorem cosineSim_comm (v w : List ℕ) : cosineSim v w = cosineSim w v := by
  unfold cosineSim
  by_cases h : dotN v v = 0 ∨ dotN w w = 0
  · rw [if_pos h, if_pos (Or.symm h)]
  · rw [if_neg h, if_neg (fun hc => h (Or.symm hc)), dotN_comm v w, mul_comm]

/-- **C4.** For every set of feature vectors, the computed similarity matrix is
symmetric: entry `(i, j)` equals entry `(j, i)` for all item indices `i, j`. -/
theorem simMatrix_symm (vs : List (List ℕ)) (i j : ℕ) :
    simMatrix vs i j = simMatrix vs j i := by
  unfold simMatrix
  exact cosineSim_comm _ _

/-- **C3.** For every set of feature vectors: the similarity matrix entry
`(i, i)` equals `1` whenever item `i`'s feature vector is not all zero, and
when item `i`'s feature vector is all zero every entry of row `i` (including
the diagonal) equals `0`.  The entries are genuine real numbers — the zero-norm
guard means no division by zero ever occurs, so no entry is `NaN` or infinite. -/
theorem simMatrix_diag_and_zero_row (vs : List (List ℕ)) (i j : ℕ) :
    (¬(∀ x ∈ vs.getD i [], x = 0) → simMatrix vs i i = 1) ∧
    ((∀ x ∈ vs.getD i [], x = 0) → simMatrix vs i j = 0) := by
  constructor
  · intro h
    exact cosineSim_self _ (fun hz => h ((dotN_self_eq_zero_iff _).mp hz))
  · intro h
    exact cosineSim_zero_left _ _ ((dotN_self_eq_zero_iff _).mpr h)

/-- Witness for C3 at the vectors `[[1], [0]]`: entry `(0,0)` is `1` since the
vector `[1]` is not all zero, and entry `(1,0)` is `0` since `[0]` is. -/
theorem simMatrix_diag_and_zero_row_witness :
    simMatrix [[1], [0]] 0 0 = 1 ∧ simMatrix [[1], [0]] 1 0 = 0 :=
  ⟨(simMatrix_diag_and_zero_row [[1], [0]] 0 1).1 (by decide),
   (simMatrix_diag_and_zero_row [[1], [0]] 1 0).2 (by decide)⟩

/-! ## The recommendation service -/

/-- **C2.** A query string that does not exactly match any item's title yields
the empty list (and `recommend`, being a total function, raises no error). -/
theorem recommend_unknown_title (movie_title : Str) (new_df : List Item)
    (similarity : List (List ℚ)) (n : ℕ)
    (h : movie_title ∉ new_df.map Item.title) :
    recommend movie_title new_df similarity n = [] := by
  unfold recommend
  simp [h]

/-- Witness for C2: `"Z"` matches no title of `dfABC`, and the result is `[]`. -/
theorem recommend_unknown_title_witness :
    strN "Z" ∉ dfABC.map Item.title ∧ recommend (strN "Z") dfABC simABC 5 = [] :=
  ⟨by decide, recommend_unknown_title (strN "Z") dfABC simABC 5 (by decide)⟩

/-! ## The sort inside `recommend` -/

instance : IsTotal (ℕ × ℚ) lexDesc :=
  ⟨by
    intro a b
    unfold lexDesc
    rcases lt_trichotomy a.2 b.2 with h | h | h
    · exact Or.inr (Or.inl h)
    · rcases Nat.le_total a.1 b.1 with h1 | h1
      · exact Or.inl (Or.inr ⟨h, h1⟩)
      · exact Or.inr (Or.inr ⟨h.symm, h1⟩)
    · exact Or.inl (Or.inl h)⟩

instance : IsTrans (ℕ × ℚ) lexDesc :=
  ⟨by
    intro a b c hab hbc
    unfold lexDesc at *
    rcases hab with h | ⟨he, hi⟩
    · rcases hbc with h' | ⟨he', _⟩
      · exact Or.inl (h'.trans h)
      · exact Or.inl (he' ▸ h)
    · rcases hbc with h' | ⟨he', hi'⟩
      · exact Or.inl (he ▸ h')
      · exact Or.inr ⟨he.trans he', hi.trans hi'⟩⟩

theorem enum_pairwise_fst (d : List ℚ) :
    (List.enum d).Pairwise (fun a b => a.1 < b.1) := by
  have h := List.pairwise_lt_range d.length
  rw [← List.enum_map_fst d, List.pairwise_map] at h
  exact h

theorem enum_nodup (d : List ℚ) : (List.enum d).Nodup :=
  (enum_pairwise_fst d).imp (fun h => by
    intro he
    rw [he] at h
    exact lt_irrefl _ h)

/-- On elements whose original index is larger than `x`'s, the stable
descending comparison by score alone agrees with the score-then-index
lexicographic comparison, so `orderedInsert` places `x` identically. -/
theorem orderedInsert_scoreDesc_eq_lexDesc (x : ℕ × ℚ) (l : List (ℕ × ℚ))
    (h : ∀ y ∈ l, x.1 < y.1) :
    l.orderedInsert scoreDesc x = l.orderedInsert lexDesc x := by
  induction l with
  | nil => rfl
  | cons y ys ih =>
    have hxy : x.1 < y.1 := h y (List.mem_cons_self y ys)
    have hcond : scoreDesc x y ↔ lexDesc x y := by
      unfold scoreDesc lexDesc
      constructor
      · intro hle
        rcases lt_or_eq_of_le hle with hlt | heq
        · exact Or.inl hlt
        · exact Or.inr ⟨heq.symm, Nat.le_of_lt hxy⟩
      · rintro (hlt | ⟨heq, _⟩)
        · exact le_of_lt hlt
        · exact le_of_eq heq.symm
    by_cases hc : scoreDesc x y
    · rw [List.orderedInsert, List.orderedInsert, if_pos hc, if_pos (hcond.mp hc)]
    · rw [List.orderedInsert, List.orderedInsert, if_neg hc,
        if_neg (fun hl => hc (hcond.mpr hl)),
        ih (fun z hz => h z (List.mem_cons_of_mem y hz))]

/-- On a list whose original indices are strictly increasing (as in
`enumerate(distances)`), the stable sort by descending score alone equals the
sort by descending score with ties broken by ascending index. -/
theorem insertionSort_scoreDesc_eq_lexDesc (l : List (ℕ × ℚ))
    (h : l.Pairwise (fun a b => a.1 < b.1)) :
    l.insertionSort scoreDesc = l.insertionSort lexDesc := by
  induction l with
  | nil => rfl
  | cons x xs ih =>
    rw [List.pairwise_cons] at h
    rw [List.insertionSort, List.insertionSort, ih h.2,
      orderedInsert_scoreDesc_eq_lexDesc x _
        (fun y hy => h.1 y ((List.mem_insertionSort lexDesc).mp hy))]

/-- **C9.** For a matched query, `recommend` sorts `enumerate(distances)` by
descending similarity score with ties broken by ascending original item index
(the stable sort keeps equal scores in enumeration order), and takes its
results from position 1 of that sorted list (`[1 : n+1]`). -/
theorem moviesList_eq_lex_sort (distances : List ℚ) (n : ℕ) :
    moviesList distances n =
      (((List.enum distances).insertionSort lexDesc).drop 1).take n := by
  unfold moviesList
  rw [insertionSort_scoreDesc_eq_lexDesc _ (enum_pairwise_fst distances)]

/-- If the matched row's score strictly dominates every earlier-indexed score
and weakly dominates every score, the lexicographically sorted list starts
with the matched pair, so everything after position 0 has a different index. -/
theorem lexSort_drop_one_fst_ne (d : List ℚ) (m : ℕ) (hm : m < d.length)
    (h1 : ∀ j, j < m → d.getD j 0 < d.getD m 0)
    (h2 : ∀ j, j < d.length → d.getD j 0 ≤ d.getD m 0) :
    ∀ p ∈ ((List.enum d).insertionSort lexDesc).drop 1, p.1 ≠ m := by
  have hperm : List.Perm ((List.enum d).insertionSort lexDesc) (List.enum d) :=
    List.perm_insertionSort lexDesc _
  have hsorted : List.Sorted lexDesc ((List.enum d).insertionSort lexDesc) :=
    List.sorted_insertionSort lexDesc _
  have hnodup : ((List.enum d).insertionSort lexDesc).Nodup :=
    hperm.symm.nodup (enum_nodup d)
  have hmemS : ∀ p : ℕ × ℚ, p ∈ (List.enum d).insertionSort lexDesc →
      p.1 < d.length ∧ p.2 = d.getD p.1 0 := by
    intro p hp
    have hpe : (p.1, p.2) ∈ List.enum d := hperm.subset hp
    have hq : d[p.1]? = some p.2 := List.mk_mem_enum_iff_getElem?.mp hpe
    have hlt : p.1 < d.length := by
      by_contra hge
      rw [List.getElem?_eq_none (Nat.le_of_not_lt hge)] at hq
      exact Option.noConfusion hq
    refine ⟨hlt, ?_⟩
    rw [List.getD_eq_getElem _ _ hlt]
    rw [List.getElem?_eq_getElem hlt] at hq
    exact (Option.some.injEq _ _ ▸ hq).symm
  have hself : (m, d.getD m 0) ∈ (List.enum d).insertionSort lexDesc := by
    apply hperm.mem_iff.mpr
    apply List.mk_mem_enum_iff_getElem?.mpr
    rw [List.getElem?_eq_getElem hm, List.getD_eq_getElem _ _ hm]
  cases hsort : (List.enum d).insertionSort lexDesc with
  | nil => simp [hsort]
  | cons s t =>
    rw [hsort] at hperm hsorted hnodup hmemS hself
    have hs := hmemS s (List.mem_cons_self s t)
    have hsm : s = (m, d.getD m 0) := by
      rcases List.mem_cons.mp hself with he | ht
      · exact he.symm
      · by_cases hjm : s.1 = m
        · have : s = (m, d.getD m 0) := by
            have := hs.2
            rw [hjm] at this
            exact Prod.ext hjm this
          exact this
        · exfalso
          have hrel := List.rel_of_sorted_cons hsorted _ ht
          rcases hrel with hlt | ⟨heq, hle⟩
          · exact absurd hlt (not_lt.mpr (hs.2 ▸ h2 s.1 hs.1))
          · have hjlt : s.1 < m := lt_of_le_of_ne hle hjm
            have := h1 s.1 hjlt
            rw [← hs.2] at this
            exact absurd heq (ne_of_lt this)
    intro p hp hpm
    have hpt : p ∈ t := by simpa using hp
    have hpmem := hmemS p (List.mem_cons_of_mem s hpt)
    have hpeq : p = (m, d.getD m 0) := by
      have := hpmem.2
      rw [hpm] at this
      exact Prod.ext hpm this
    rw [List.nodup_cons] at hnodup
    exact hnodup.1 (hsm ▸ hpeq ▸ hpt)

/-- **C1 (amended).** `recommend(title, n)` never includes the matched row's
own index among the indices of its results, **provided** the matched row's
score strictly exceeds every earlier-indexed score and is a maximum overall —
as holds when the query's feature vector is nonzero (so its self-similarity
`1.0` is the unique maximum among indices `≤ m`).  The unamended claim is
false: with a zero query vector, or a duplicate of the query's tag string at a
smaller index, the query's own row survives the `[1 : n+1]` slice (see the
counterexample `recommend_includes_self_cex`). -/
theorem recommend_excludes_self_amended
    (movie_title : Str) (new_df : List Item) (similarity : List (List ℚ))
    (n m : ℕ) (distances : List ℚ)
    (hmem : movie_title ∈ new_df.map Item.title)
    (hidx : m = (new_df.map Item.title).indexOf movie_title)
    (hdist : distances = similarity.getD m [])
    (hm : m < distances.length)
    (h1 : ∀ j, j < m → distances.getD j 0 < distances.getD m 0)
    (h2 : ∀ j, j < distances.length → distances.getD j 0 ≤ distances.getD m 0) :
    m ∉ (moviesList distances n).map Prod.fst := by
  intro hin
  obtain ⟨p, hp, hpm⟩ := List.mem_map.mp hin
  unfold moviesList at hp
  rw [insertionSort_scoreDesc_eq_lexDesc _ (enum_pairwise_fst distances)] at hp
  exact lexSort_drop_one_fst_ne distances m hm h1 h2 p (List.mem_of_mem_take hp) hpm

/-- A two-item table with distinct tag strings, for the C1 witness. -/
def dfAB : List Item := [⟨1, strN "A", strN "x"⟩, ⟨2, strN "B", strN "y"⟩]

/-- A similarity matrix for `dfAB` in which each item is similar only to itself. -/
def simAB : List (List ℚ) := [[1, 0], [0, 1]]

/-- Witness for the amended C1: querying `"B"` (row 1 of `dfAB`, whose score 1
strictly dominates row 0's score 0) never returns row 1 itself. -/
theorem recommend_excludes_self_amended_witness :
    strN "B" ∈ dfAB.map Item.title ∧ (1 : ℕ) ∉ (moviesList [0, 1] 5).map Prod.fst :=
  ⟨by decide,
   recommend_excludes_self_amended (strN "B") dfAB simAB 5 1 [0, 1]
     (by decide) (by decide) (by decide) (by decide) (by decide) (by decide)⟩

/-- **Counterexample to C1 as stated.** In the corpus `dfABC`, item `"B"`
(row index 1) has an all-zero feature vector, so its whole similarity row is
`0`; the stable descending sort leaves the tied row in enumeration order, the
`[1 : n+1]` slice keeps position 1 — which is the query itself — and
`recommend("B", 5)` returns `"B"` as its own first recommendation. -/
theorem recommend_includes_self_cex :
    strN "B" ∈ dfABC.map Item.title ∧
    (dfABC.map Item.title).indexOf (strN "B") = 1 ∧
    (1 : ℕ) ∈ (moviesList (simABC.getD 1 []) 5).map Prod.fst ∧
    recommend (strN "B") dfABC simABC 5 = [strN "B", strN "C"] := by
  decide

/-- The matrix `simABC` is reachable: it is exactly the cosine similarity
matrix of the count vectors `[[1], [0], [0]]` (item "A" with one tag occurrence,
items "B" and "C" with empty tag strings). -/
theorem simMatrix_dfABC (i j : ℕ) (hi : i < 3) (hj : j < 3) :
    simMatrix [[1], [0], [0]] i j = ((simABC.getD i []).getD j 0 : ℝ) := by
  interval_cases i <;> interval_cases j <;>
    simp [simMatrix, cosineSim, simABC, dotN]

/-! ## Error handling of the build -/

deriving instance DecidableEq for Except

/-- A row with at least one attribute field whose raw encoding cannot be
parsed as the expected record-list structure. -/
def malformedRow (r : RawRow) : Prop :=
  r.genres = none ∨ r.keywords = none ∨ r.cast = none ∨ r.crew = none

instance : DecidablePred malformedRow := fun r =>
  inferInstanceAs (Decidable (_ ∨ _ ∨ _ ∨ _))

theorem processRow_error_iff (r : RawRow) :
    processRow r = Except.error () ↔ malformedRow r := by
  obtain ⟨i, t, ov, g, k, c, cr⟩ := r
  cases g <;> cases k <;> cases c <;> cases cr <;>
    simp [processRow, malformedRow, convert, convert_top3_cast, fetch_directorF,
      Except.bind, Bind.bind]

/-- **C6 (amended).** The build does *not* drop a row whose attribute field
fails to parse: the parse error (`ast.literal_eval` raising inside
`pandas.apply`) aborts the whole build.  Precisely, the build fails if and
only if some row is malformed — and then produces no output at all, instead
of completing on the remaining rows. -/
theorem load_and_process_data_error_iff (rows : List RawRow) :
    load_and_process_data rows = Except.error () ↔ ∃ r ∈ rows, malformedRow r := by
  unfold load_and_process_data
  induction rows with
  | nil => simp [mapE]
  | cons r rs ih =>
    rw [mapE]
    constructor
    · intro h
      cases hfr : processRow r with
      | error e =>
        exact ⟨r, List.mem_cons_self r rs, (processRow_error_iff r).mp hfr⟩
      | ok y =>
        rw [hfr] at h
        cases hrest : mapE processRow rs with
        | error e =>
          obtain ⟨r', hr', hm⟩ := ih.mp hrest
          exact ⟨r', List.mem_cons_of_mem r hr', hm⟩
        | ok ys =>
          rw [hrest] at h
          simp [Except.bind, Bind.bind] at h
    · rintro ⟨r', hr', hm⟩
      rcases List.mem_cons.mp hr' with rfl | hr'
      · have : processRow r' = Except.error () := (processRow_error_iff r').mpr hm
        rw [this]
        rfl
      · cases hfr : processRow r with
        | error e => rfl
        | ok y =>
          have : mapE processRow rs = Except.error () := ih.mpr ⟨r', hr', hm⟩
          rw [this]
          rfl

/-- A fully well-formed row. -/
def goodRow : RawRow :=
  ⟨1, strN "A", strN "An alien", some [⟨some (strN "Science Fiction"), none⟩],
    some [], some [], some []⟩

/-- A row whose `genres` field cannot be parsed as a record list. -/
def badRow : RawRow := ⟨2, strN "B", strN "x", none, some [], some [], some []⟩

/-- **Counterexample to C6 as stated.** With one well-formed row and one row
whose `genres` encoding cannot be parsed, the build fails outright (the
exception propagates out of `pandas.apply`); it does not drop the bad row and
complete for the remaining rows — even though the same build succeeds when
given only the well-formed row. -/
theorem load_and_process_data_not_row_dropping :
    load_and_process_data [goodRow, badRow] = Except.error () ∧
    load_and_process_data [goodRow] ≠ Except.error () := by decide

/-- Witness applying the amended C6 at a concrete input: the two-row table
containing `badRow` satisfies the right-hand side, so the build errors. -/
theorem load_and_process_data_error_iff_witness :
    load_and_process_data [goodRow, badRow] = Except.error () :=
  (load_and_process_data_error_iff [goodRow, badRow]).mpr
    ⟨badRow, by decide, by decide⟩

/-! ## The director extraction -/

/-- **C8 (amended).** `fetch_director` scans the records in order and stops at
the *first* record whose `job` equals `"Director"` (later matches are never
considered); it returns that record's stripped name as a single-element list
*only when the stripped name is non-empty*, and the empty list both when no
record matches and when the first matching record's name is missing or
whitespace-only. -/
theorem fetch_director_find (recs : List RecEntry) :
    fetch_director recs =
      match recs.find? (fun e => decide (e.job = some (strN "Director"))) with
      | none => []
      | some e =>
        if strip (e.name.getD []) = [] then [] else [strip (e.name.getD [])] := by
  induction recs with
  | nil => rfl
  | cons r rs ih =>
    by_cases h : r.job = some (strN "Director")
    · simp [fetch_director, h, List.find?_cons_of_pos]
    · simp [fetch_director, h, List.find?_cons_of_neg, ih]

/-- **Counterexample to C8 as stated.** A crew list whose only record has
`job = "Director"` but a whitespace-only name: a record *does* match, yet the
result is the empty list, not a single-element list containing that record's
name. -/
theorem fetch_director_empty_name_cex :
    (⟨some (strN " "), some (strN "Director")⟩ : RecEntry).job = some (strN "Director") ∧
    fetch_director [⟨some (strN " "), some (strN "Director")⟩] = [] := by decide

/-! ## Tag composition -/

theorem mapE_ok_get (f : α → Except Unit β) (l : List α) (l' : List β)
    (h : mapE f l = Except.ok l') (i : ℕ) (hi : i < l.length) (hi' : i < l'.length) :
    f (l.get ⟨i, hi⟩) = Except.ok (l'.get ⟨i, hi'⟩) := by
  induction l generalizing l' i with
  | nil => exact absurd hi (Nat.not_lt_zero i)
  | cons x xs ih =>
    rw [mapE] at h
    cases hfx : f x with
    | error e => rw [hfx] at h; simp [Except.bind, Bind.bind] at h
    | ok y =>
      rw [hfx] at h
      cases hrest : mapE f xs with
      | error e => rw [hrest] at h; simp [Except.bind, Bind.bind] at h
      | ok ys =>
        rw [hrest] at h
        simp only [Except.bind, Bind.bind, Except.ok.injEq] at h
        subst h
        cases i with
        | zero => simpa using hfx
        | succ n =>
          simp only [List.get_cons_succ]
          exact ih ys hrest n (Nat.lt_of_succ_lt_succ hi) (Nat.lt_of_succ_lt_succ hi')

/-- The tag string described by the specification: the concatenation of the
overview's whitespace tokens, then the genre names, then the keyword names,
then the (top-3) cast names, then the (director) crew names, in that fixed
order, with internal spaces removed from each name, the whole string
lowercased, and then the cleaning step (`stem`, stop-word removal) applied.
Defined only when all four record-list fields parse. -/
def composeTagsSpec (r : RawRow) : Option Str :=
  match r.genres, r.keywords, r.cast, r.crew with
  | some gRecs, some kRecs, some cRecs, some crRecs =>
    some (stem (lowerStr (joinSpace
      (pySplit r.overview
        ++ (gRecs.map (fun e => strip (e.name.getD []))).map despace
        ++ (kRecs.map (fun e => strip (e.name.getD []))).map despace
        ++ ((cRecs.take 3).map (fun e => strip (e.name.getD []))).map despace
        ++ (fetch_director crRecs).map despace))))
  | _, _, _, _ => none

theorem processRow_tags (r : RawRow) (it : Item) (h : processRow r = Except.ok it) :
    composeTagsSpec r = some it.tags := by
  obtain ⟨ri, rt, rov, g, k, c, cr⟩ := r
  cases g with
  | none => simp [processRow, convert, Except.bind, Bind.bind] at h
  | some gRecs =>
    cases k with
    | none => simp [processRow, convert, Except.bind, Bind.bind] at h
    | some kRecs =>
      cases c with
      | none => simp [processRow, convert, convert_top3_cast, Except.bind, Bind.bind] at h
      | some cRecs =>
        cases cr with
        | none =>
          simp [processRow, convert, convert_top3_cast, fetch_directorF,
            Except.bind, Bind.bind] at h
        | some crRecs =>
          simp only [processRow, convert, convert_top3_cast, fetch_directorF,
            Except.bind, Bind.bind, Except.ok.injEq] at h
          subst h
          simp [composeTagsSpec, List.append_assoc]

/-- **C7.** Every item produced by the build carries exactly the tag string
described by the specification: overview tokens, then genres, then keywords,
then cast, then crew, names de-spaced, the joined string lowercased, and the
stop-word cleaning applied last. -/
theorem load_and_process_data_tags (rows : List RawRow) (items : List Item)
    (h : load_and_process_data rows = Except.ok items) (i : ℕ)
    (hi : i < rows.length) (hi' : i < items.length) :
    composeTagsSpec (rows.get ⟨i, hi⟩) = some ((items.get ⟨i, hi'⟩).tags) :=
  processRow_tags _ _ (mapE_ok_get processRow rows items h i hi hi')

/-- Witness for C7: the one-row table `[goodRow]` builds successfully and its
item's tag string is exactly the specified composition. -/
theorem load_and_process_data_tags_witness :
    load_and_process_data [goodRow] =
      Except.ok [⟨1, strN "A", strN "alien sciencefiction"⟩] ∧
    composeTagsSpec (([goodRow] : List RawRow).get ⟨0, by decide⟩) =
      some (([(⟨1, strN "A", strN "alien sciencefiction"⟩ : Item)].get ⟨0, by decide⟩).tags) :=
  ⟨by decide,
   load_and_process_data_tags [goodRow] [⟨1, strN "A", strN "alien sciencefiction"⟩]
     (by decide) 0 (by decide) (by decide)⟩

/-! ## Idempotence of the text cleaner -/

theorem isSpaceB_eq_false_iff (c : ℕ) :
    isSpaceB c = false ↔ c ≠ 32 ∧ c ≠ 9 ∧ c ≠ 10 ∧ c ≠ 11 ∧ c ≠ 12 ∧ c ≠ 13 := by
  simp [isSpaceB]
  tauto

theorem lowerChar_idem (c : ℕ) : lowerChar (lowerChar c) = lowerChar c := by
  unfold lowerChar
  by_cases h : 65 ≤ c ∧ c ≤ 90
  · rw [if_pos h, if_neg (by omega)]
  · rw [if_neg h, if_neg h]

theorem lowerChar_not_space (c : ℕ) (h : isSpaceB c = false) :
    isSpaceB (lowerChar c) = false := by
  unfold lowerChar
  by_cases hc : 65 ≤ c ∧ c ≤ 90
  · rw [if_pos hc, isSpaceB_eq_false_iff]
    omega
  · rw [if_neg hc]
    exact h

theorem lowerStr_idem (w : Str) : lowerStr (lowerStr w) = lowerStr w := by
  unfold lowerStr
  rw [List.map_map]
  exact List.map_congr_left (fun c _ => lowerChar_idem c)

/-- Every token produced by `splitOnP` is free of separator characters. -/
theorem splitOnP_sep_free (p : ℕ → Bool) (s : Str) :
    ∀ t ∈ List.splitOnP p s, ∀ c ∈ t, p c = false := by
  induction s with
  | nil =>
    intro t ht
    rw [List.splitOnP_nil] at ht
    rcases List.mem_singleton.mp ht with rfl
    intro c hc
    exact absurd hc (List.not_mem_nil c)
  | cons x xs ih =>
    intro t ht
    rw [List.splitOnP_cons] at ht
    by_cases hx : p x
    · rw [if_pos hx] at ht
      rcases List.mem_cons.mp ht with rfl | ht'
      · intro c hc
        exact absurd hc (List.not_mem_nil c)
      · exact ih t ht'
    · rw [if_neg hx] at ht
      obtain ⟨h0, rest, hsp⟩ := List.exists_cons_of_ne_nil (List.splitOnP_ne_nil p xs)
      rw [hsp] at ht
      rcases List.mem_cons.mp ht with rfl | ht'
      · intro c hc
        rcases List.mem_cons.mp hc with rfl | hc'
        · exact Bool.eq_false_iff.mpr hx
        · exact ih h0 (hsp ▸ List.mem_cons_self h0 rest) c hc'
      · exact ih t (hsp ▸ List.mem_cons_of_mem h0 ht')

theorem pySplit_tokens (s : Str) :
    ∀ t ∈ pySplit s, t ≠ [] ∧ ∀ c ∈ t, isSpaceB c = false := by
  intro t ht
  rw [pySplit, List.mem_filter] at ht
  refine ⟨by simpa using ht.2, ?_⟩
  exact splitOnP_sep_free (fun c => isSpaceB c) s t ht.1

theorem joinSpace_cons_cons (t t' : Str) (ts : List Str) :
    joinSpace (t :: t' :: ts) = t ++ 32 :: joinSpace (t' :: ts) := by
  unfold joinSpace
  rw [List.intercalate, List.intercalate, List.intersperse_cons_cons]
  simp

/-- Splitting on whitespace is a left inverse of joining with single spaces,
for whitespace-free non-empty tokens. -/
theorem pySplit_joinSpace (ts : List Str)
    (hne : ∀ t ∈ ts, t ≠ [])
    (hws : ∀ t ∈ ts, ∀ c ∈ t, isSpaceB c = false) :
    pySplit (joinSpace ts) = ts := by
  induction ts with
  | nil => rfl
  | cons t ts' ih =>
    have htne : t ≠ [] := hne t (List.mem_cons_self t ts')
    have htws : ∀ c ∈ t, ¬(isSpaceB c = true) := by
      intro c hc
      rw [hws t (List.mem_cons_self t ts') c hc]
      exact Bool.false_ne_true
    cases ts' with
    | nil =>
      rw [joinSpace, List.intercalate]
      simp only [List.intersperse_singleton, List.flatten, List.append_nil]
      rw [pySplit, List.splitOnP_eq_single _ _ htws]
      simp [htne]
    | cons t' ts'' =>
      have ihr : pySplit (joinSpace (t' :: ts'')) = t' :: ts'' :=
        ih (fun u hu => hne u (List.mem_cons_of_mem t hu))
          (fun u hu => hws u (List.mem_cons_of_mem t hu))
      rw [joinSpace_cons_cons, pySplit,
        List.splitOnP_first _ _ htws 32 (by rfl) _,
        List.filter_cons, if_pos (decide_eq_true htne)]
      exact congrArg (fun l => t :: l) ihr

/-- **C10.** The text cleaner `stem` is idempotent: splitting its own output
re-yields exactly the cleaned tokens (they are non-empty and whitespace-free),
lowercasing an already-lowercased token changes nothing, and re-filtering an
already stop-word-free token sequence changes nothing. -/
theorem stem_idem (s : Str) : stem (stem s) = stem s := by
  have hne : ∀ t ∈ ((pySplit s).map lowerStr).filter (fun w => w ∉ ENGLISH_STOP_WORDS),
      t ≠ [] := by
    intro t ht
    obtain ⟨w, hw, rfl⟩ := List.mem_map.mp (List.mem_of_mem_filter ht)
    intro hnil
    exact (pySplit_tokens s w hw).1 (List.map_eq_nil_iff.mp hnil)
  have hws : ∀ t ∈ ((pySplit s).map lowerStr).filter (fun w => w ∉ ENGLISH_STOP_WORDS),
      ∀ c ∈ t, isSpaceB c = false := by
    intro t ht c hc
    obtain ⟨w, hw, rfl⟩ := List.mem_map.mp (List.mem_of_mem_filter ht)
    obtain ⟨c', hc', rfl⟩ := List.mem_map.mp hc
    exact lowerChar_not_space c' ((pySplit_tokens s w hw).2 c' hc')
  have hlow : (((pySplit s).map lowerStr).filter
        (fun w => w ∉ ENGLISH_STOP_WORDS)).map lowerStr =
      ((pySplit s).map lowerStr).filter (fun w => w ∉ ENGLISH_STOP_WORDS) := by
    have := List.map_congr_left (l := ((pySplit s).map lowerStr).filter
      (fun w => w ∉ ENGLISH_STOP_WORDS)) (f := lowerStr) (g := id) ?_
    · simpa using this
    · intro t ht
      obtain ⟨w, hw, rfl⟩ := List.mem_map.mp (List.mem_of_mem_filter ht)
      exact lowerStr_idem w
  have hstop : (((pySplit s).map lowerStr).filter
        (fun w => w ∉ ENGLISH_STOP_WORDS)).filter (fun w => w ∉ ENGLISH_STOP_WORDS) =
      ((pySplit s).map lowerStr).filter (fun w => w ∉ ENGLISH_STOP_WORDS) := by
    apply List.filter_eq_self.mpr
    intro t ht
    exact (List.mem_filter.mp ht).2
  show stem (joinSpace (((pySplit s).map lowerStr).filter
    (fun w => w ∉ ENGLISH_STOP_WORDS))) = stem s
  rw [stem, pySplit_joinSpace _ hne hws, hlow, hstop]
  rfl
